import Mathlib

/-!
Verification development for the TabSurvey repository (evaluation driver,
model registry, feed-forward "MLP" model, attribution utilities).

The stateful training loop of `MLP.fit` (src/models/mlp.py) is embedded as an
explicit state machine over exact rationals: the per-validation-batch loss
values produced by the floating-point runtime are inputs to the model
(`vB e i` is the list of per-batch validation losses that the inner
validation loop observes after training batch `i` of epoch `e`), and the
loop's bookkeeping — the running minimum validation loss, its step index, the
checkpoint saves and the early-stopping exit — is translated line by line.
Real-valued network mathematics (forward pass, softmax, losses) is embedded
over `ℝ` further below.
-/

set_option maxHeartbeats 1000000

namespace TabSurvey

/-- The three objectives of the run configuration (`args.objective`). -/
inductive Objective
  | regression
  | classification
  | binary
  deriving DecidableEq, Repr

/-- The model implementations enumerated by the registry
(src/models/__init__.py). -/
inductive ModelKind
  | LinearModel | KNN | SVM | DecisionTree | RandomForest
  | XGBoost | CatBoost | LightGBM
  | MLP | ModelTree | TabNet | VIME | TabTransformer | NODE
  | DeepGBM | RLN | DNFNet | STG
  deriving DecidableEq, Repr

/-- Function `str2model` from src/models/__init__.py: the if/elif chain mapping a
model-name string to the implementation, else raising
`NotImplementedError("Model \"" + model + "\" not yet implemented")`.
The raised error is embedded as `Except.error` carrying the message. -/
def str2model (model : String) : Except String ModelKind :=
  if model = "LinearModel" then .ok .LinearModel
  else if model = "KNN" then .ok .KNN
  else if model = "SVM" then .ok .SVM
  else if model = "DecisionTree" then .ok .DecisionTree
  else if model = "RandomForest" then .ok .RandomForest
  else if model = "XGBoost" then .ok .XGBoost
  else if model = "CatBoost" then .ok .CatBoost
  else if model = "LightGBM" then .ok .LightGBM
  else if model = "MLP" then .ok .MLP
  else if model = "ModelTree" then .ok .ModelTree
  else if model = "TabNet" then .ok .TabNet
  else if model = "VIME" then .ok .VIME
  else if model = "TabTransformer" then .ok .TabTransformer
  else if model = "NODE" then .ok .NODE
  else if model = "DeepGBM" then .ok .DeepGBM
  else if model = "RLN" then .ok .RLN
  else if model = "DNFNet" then .ok .DNFNet
  else if model = "STG" then .ok .STG
  else .error ("Model \"" ++ model ++ "\" not yet implemented")

/-- The registry's enumerated identifiers, in source order. -/
def registryNames : List String :=
  ["LinearModel", "KNN", "SVM", "DecisionTree", "RandomForest",
   "XGBoost", "CatBoost", "LightGBM",
   "MLP", "ModelTree", "TabNet", "VIME", "TabTransformer", "NODE",
   "DeepGBM", "RLN", "DNFNet", "STG"]

/-! ### The `MLP.fit` training loop as a state machine -/

/-- One processed training batch of `MLP.fit`, as observed by the loop body:
which epoch and batch it was, the `current_idx` computed for it, the
validation loss computed after it, the best-so-far validation loss before
and after the improvement check, the best step index after the check, and
whether this batch saved a "best" checkpoint. -/
structure TraceEntry where
  epoch : ℕ
  batchIdx : ℕ
  currentIdx : ℕ
  valLoss : ℚ
  minBefore : WithTop ℚ
  minAfter : WithTop ℚ
  minIdxAfter : ℕ
  saved : Bool
  deriving DecidableEq, Repr

/-- The mutable state of `MLP.fit`: `min_val_loss` (initialised to
`float("inf")`, embedded as `⊤ : WithTop ℚ`), `min_val_loss_idx`, the list of
(extension, directory) pairs passed to `save_model` so far, the trace of
processed batches, and whether the early-stopping `return` has fired. -/
structure FitState where
  minValLoss : WithTop ℚ
  minValLossIdx : ℕ
  savedFiles : List (String × String)
  trace : List TraceEntry
  stopped : Bool
  deriving DecidableEq, Repr

/-- The inner validation loop of `MLP.fit`: starting from
`val_loss = 0.0, val_dim = 0`, each validation batch adds its loss and
increments the count. -/
def valAccum (ls : List ℚ) : ℚ × ℕ :=
  ls.foldl (fun p l => (p.1 + l, p.2 + 1)) (0, 0)

/-- Line `val_loss /= val_dim` after the validation loop: the accumulated loss
divided by the number of validation batches. -/
def valLoopMean (ls : List ℚ) : ℚ :=
  (valAccum ls).1 / ((valAccum ls).2 : ℚ)

/-- The body of `MLP.fit`'s training-batch loop, after the optimizer step:
run the validation loop, compute `current_idx = (i + 1) * (epoch + 1)`,
update `min_val_loss` / `min_val_loss_idx` and save a "best" checkpoint
under "tmp" on strict improvement, then evaluate the early-stopping test
`min_val_loss_idx + early_stopping_rounds < current_idx`. Returns the new
state and whether the loop `return`s. -/
def fitStep (vB : ℕ → ℕ → List ℚ) (patience e i : ℕ) (s : FitState) :
    FitState × Bool :=
  let v : ℚ := valLoopMean (vB e i)
  let cur : ℕ := (i + 1) * (e + 1)
  let s' : FitState :=
    if (v : WithTop ℚ) < s.minValLoss then
      { minValLoss := (v : WithTop ℚ)
        minValLossIdx := cur
        savedFiles := s.savedFiles ++ [("best", "tmp")]
        trace := s.trace ++ [⟨e, i, cur, v, s.minValLoss, (v : WithTop ℚ), cur, true⟩]
        stopped := s.stopped }
    else
      { s with
        trace := s.trace ++ [⟨e, i, cur, v, s.minValLoss, s.minValLoss, s.minValLossIdx, false⟩] }
  (s', decide (s'.minValLossIdx + patience < cur))

/-- The inner `for i, (batch_X, batch_y) in enumerate(train_loader)` loop of
one epoch, over the list of remaining batch indices; the `Bool` reports
whether the early-stopping `return` fired inside this epoch. -/
def fitEpochRun (vB : ℕ → ℕ → List ℚ) (patience e : ℕ) :
    List ℕ → FitState → FitState × Bool
  | [], s => (s, false)
  | i :: rest, s =>
    let r := fitStep vB patience e i s
    if r.2 then (r.1, true) else fitEpochRun vB patience e rest r.1

/-- The outer `for epoch in range(self.args.epochs)` loop; an early-stopping
`return` abandons the remaining epochs and marks the run as stopped. -/
def fitRun (vB : ℕ → ℕ → List ℚ) (patience B : ℕ) :
    List ℕ → FitState → FitState
  | [], s => s
  | e :: rest, s =>
    let r := fitEpochRun vB patience e (List.range B) s
    if r.2 then { r.1 with stopped := true } else fitRun vB patience B rest r.1

/-- The state before the training loop: `min_val_loss = float("inf")`,
`min_val_loss_idx = 0`, nothing saved, nothing processed. -/
def initFitState : FitState :=
  { minValLoss := ⊤, minValLossIdx := 0, savedFiles := [], trace := [], stopped := false }

/-- Method `MLP.fit` with `E` epochs, `B` training batches per epoch, early-stopping
patience `patience`, and per-step validation-batch losses `vB`. -/
def MLPfit (E B patience : ℕ) (vB : ℕ → ℕ → List ℚ) : FitState :=
  fitRun vB patience B (List.range E) initFitState

/-- Reference run: the same loop body over a flattened schedule of
(epoch, batch) pairs, stopping at the first fired early-stopping test. -/
def runSched (vB : ℕ → ℕ → List ℚ) (patience : ℕ) :
    List (ℕ × ℕ) → FitState → FitState
  | [], s => s
  | p :: rest, s =>
    let r := fitStep vB patience p.1 p.2 s
    if r.2 then { r.1 with stopped := true } else runSched vB patience rest r.1

/-- The full schedule of (epoch, batch) pairs that `MLP.fit` would process
absent early stopping. -/
def schedule (E B : ℕ) : List (ℕ × ℕ) :=
  (List.range E).flatMap (fun e => (List.range B).map (fun i => (e, i)))

/-- The trace entry a single loop-body execution appends. -/
def fitEntry (vB : ℕ → ℕ → List ℚ) (e i : ℕ) (s : FitState) : TraceEntry :=
  let v : ℚ := valLoopMean (vB e i)
  let cur : ℕ := (i + 1) * (e + 1)
  if (v : WithTop ℚ) < s.minValLoss then
    ⟨e, i, cur, v, s.minValLoss, (v : WithTop ℚ), cur, true⟩
  else
    ⟨e, i, cur, v, s.minValLoss, s.minValLoss, s.minValLossIdx, false⟩

/-- The early-stopping test of a loop-body execution, as a predicate on the
entry it appended. -/
def stopCond (patience : ℕ) (t : TraceEntry) : Prop :=
  t.minIdxAfter + patience < t.currentIdx

instance (patience : ℕ) : DecidablePred (stopCond patience) := fun t =>
  inferInstanceAs (Decidable (t.minIdxAfter + patience < t.currentIdx))

lemma fitStep_fst_stopped (vB : ℕ → ℕ → List ℚ) (patience e i : ℕ) (s : FitState) :
    (fitStep vB patience e i s).1.stopped = s.stopped := by
  simp only [fitStep]
  split <;> rfl

lemma fitStep_fst_trace (vB : ℕ → ℕ → List ℚ) (patience e i : ℕ) (s : FitState) :
    (fitStep vB patience e i s).1.trace = s.trace ++ [fitEntry vB e i s] := by
  simp only [fitStep, fitEntry]
  split <;> rfl

lemma fitStep_snd (vB : ℕ → ℕ → List ℚ) (patience e i : ℕ) (s : FitState) :
    (fitStep vB patience e i s).2 =
      decide (stopCond patience (fitEntry vB e i s)) := by
  simp only [fitStep, fitEntry, stopCond]
  split <;> rfl

lemma fitEntry_epoch (vB : ℕ → ℕ → List ℚ) (e i : ℕ) (s : FitState) :
    (fitEntry vB e i s).epoch = e := by
  simp only [fitEntry]; split <;> rfl

lemma fitEntry_batchIdx (vB : ℕ → ℕ → List ℚ) (e i : ℕ) (s : FitState) :
    (fitEntry vB e i s).batchIdx = i := by
  simp only [fitEntry]; split <;> rfl

lemma fitEntry_currentIdx (vB : ℕ → ℕ → List ℚ) (e i : ℕ) (s : FitState) :
    (fitEntry vB e i s).currentIdx = (i + 1) * (e + 1) := by
  simp only [fitEntry]; split <;> rfl

lemma fitEntry_valLoss (vB : ℕ → ℕ → List ℚ) (e i : ℕ) (s : FitState) :
    (fitEntry vB e i s).valLoss = valLoopMean (vB e i) := by
  simp only [fitEntry]; split <;> rfl

lemma fitEntry_minBefore (vB : ℕ → ℕ → List ℚ) (e i : ℕ) (s : FitState) :
    (fitEntry vB e i s).minBefore = s.minValLoss := by
  simp only [fitEntry]; split <;> rfl

lemma fitEntry_minAfter (vB : ℕ → ℕ → List ℚ) (e i : ℕ) (s : FitState) :
    (fitEntry vB e i s).minAfter =
      min s.minValLoss ((valLoopMean (vB e i) : ℚ) : WithTop ℚ) := by
  simp only [fitEntry]
  split
  · next h => simp [min_eq_right (le_of_lt h)]
  · next h => simp [min_eq_left (le_of_not_lt h)]

lemma fitEntry_saved (vB : ℕ → ℕ → List ℚ) (e i : ℕ) (s : FitState) :
    (fitEntry vB e i s).saved =
      decide (((valLoopMean (vB e i) : ℚ) : WithTop ℚ) < s.minValLoss) := by
  simp only [fitEntry]
  split
  · next h => simp [h]
  · next h => simp [h]

/-- The inner per-epoch loop never changes the stopped flag of the state it
returns (the flag is set by the outer loop when the inner loop reports the
early return). -/
lemma fitEpochRun_fst_stopped (vB : ℕ → ℕ → List ℚ) (patience e : ℕ) :
    ∀ (l : List ℕ) (s : FitState),
      (fitEpochRun vB patience e l s).1.stopped = s.stopped := by
  intro l
  induction l with
  | nil => intro s; rfl
  | cons i rest ih =>
    intro s
    simp only [fitEpochRun]
    split
    · exact fitStep_fst_stopped vB patience e i s
    · rw [ih]
      exact fitStep_fst_stopped vB patience e i s

/-- One epoch of the nested loop equals the reference run on that epoch's
slice of the schedule. -/
lemma fitEpochRun_eq_runSched (vB : ℕ → ℕ → List ℚ) (patience e : ℕ) :
    ∀ (l : List ℕ) (s : FitState),
      runSched vB patience (l.map (fun i => (e, i))) s =
        (if (fitEpochRun vB patience e l s).2 then
          { (fitEpochRun vB patience e l s).1 with stopped := true }
        else (fitEpochRun vB patience e l s).1) := by
  intro l
  induction l with
  | nil => intro s; rfl
  | cons i rest ih =>
    intro s
    simp only [List.map_cons, runSched, fitEpochRun]
    by_cases h : (fitStep vB patience e i s).2 = true
    · simp [h]
    · simp only [h]
      simp only [Bool.not_eq_true] at h
      simp [h]
      exact ih (fitStep vB patience e i s).1

/-- The reference run distributes over concatenation of the schedule, as
long as the incoming state is not already stopped. -/
lemma runSched_append (vB : ℕ → ℕ → List ℚ) (patience : ℕ) :
    ∀ (l1 l2 : List (ℕ × ℕ)) (s : FitState), s.stopped = false →
      runSched vB patience (l1 ++ l2) s =
        (if (runSched vB patience l1 s).stopped then runSched vB patience l1 s
         else runSched vB patience l2 (runSched vB patience l1 s)) := by
  intro l1
  induction l1 with
  | nil =>
    intro l2 s hs
    simp [runSched, hs]
  | cons p rest ih =>
    intro l2 s hs
    simp only [List.cons_append, runSched]
    by_cases h : (fitStep vB patience p.1 p.2 s).2 = true
    · simp [h]
    · have hst : (fitStep vB patience p.1 p.2 s).1.stopped = false := by
        rw [fitStep_fst_stopped]; exact hs
      simp only [Bool.not_eq_true] at h
      simp [h]
      exact ih l2 (fitStep vB patience p.1 p.2 s).1 hst

/-- The nested double loop of `MLP.fit` equals the reference run on the
flattened schedule. -/
lemma fitRun_eq_runSched (vB : ℕ → ℕ → List ℚ) (patience B : ℕ) :
    ∀ (es : List ℕ) (s : FitState), s.stopped = false →
      fitRun vB patience B es s =
        runSched vB patience
          (es.flatMap (fun e => (List.range B).map (fun i => (e, i)))) s := by
  intro es
  induction es with
  | nil => intro s _; rfl
  | cons e rest ih =>
    intro s hs
    have hflat : ((e :: rest).flatMap (fun e => (List.range B).map (fun i => (e, i)))) =
        ((List.range B).map (fun i => (e, i))) ++
          (rest.flatMap (fun e => (List.range B).map (fun i => (e, i)))) := by
      simp [List.flatMap_cons]
    rw [hflat, runSched_append vB patience _ _ s hs,
      fitEpochRun_eq_runSched vB patience e (List.range B) s]
    simp only [fitRun]
    by_cases h : (fitEpochRun vB patience e (List.range B) s).2 = true
    · simp [h]
    · have h1 : (fitEpochRun vB patience e (List.range B) s).1.stopped = false := by
        rw [fitEpochRun_fst_stopped]; exact hs
      simp only [Bool.not_eq_true] at h
      simp [h, h1]
      exact ih (fitEpochRun vB patience e (List.range B) s).1 h1

lemma MLPfit_eq_runSched (E B patience : ℕ) (vB : ℕ → ℕ → List ℚ) :
    MLPfit E B patience vB = runSched vB patience (schedule E B) initFitState :=
  fitRun_eq_runSched vB patience B (List.range E) initFitState rfl

/-- The reference run only appends to the trace. -/
lemma runSched_trace_length_le (vB : ℕ → ℕ → List ℚ) (patience : ℕ) :
    ∀ (sched : List (ℕ × ℕ)) (s : FitState),
      s.trace.length ≤ (runSched vB patience sched s).trace.length := by
  intro sched
  induction sched with
  | nil => intro s; exact le_refl _
  | cons p rest ih =>
    intro s
    simp only [runSched]
    by_cases h : (fitStep vB patience p.1 p.2 s).2 = true
    · simp [h, fitStep_fst_trace]
    · simp only [Bool.not_eq_true] at h
      simp only [h, Bool.false_eq_true, if_false]
      refine le_trans ?_ (ih (fitStep vB patience p.1 p.2 s).1)
      rw [fitStep_fst_trace]
      simp

/-- Any invariant of trace entries established by the loop body holds of
every entry the reference run produces. -/
lemma runSched_trace_forall (vB : ℕ → ℕ → List ℚ) (patience : ℕ)
    (Φ : TraceEntry → Prop)
    (hΦ : ∀ (e i : ℕ) (s : FitState), Φ (fitEntry vB e i s)) :
    ∀ (sched : List (ℕ × ℕ)) (s : FitState),
      (∀ t ∈ s.trace, Φ t) →
      ∀ t ∈ (runSched vB patience sched s).trace, Φ t := by
  intro sched
  induction sched with
  | nil => intro s hs; exact hs
  | cons p rest ih =>
    intro s hs
    have hstep : ∀ t ∈ (fitStep vB patience p.1 p.2 s).1.trace, Φ t := by
      rw [fitStep_fst_trace]
      intro t ht
      rcases List.mem_append.1 ht with h | h
      · exact hs t h
      · rcases List.mem_singleton.1 h with rfl
        exact hΦ p.1 p.2 s
    simp only [runSched]
    by_cases h : (fitStep vB patience p.1 p.2 s).2 = true
    · simp only [h, if_true]
      exact hstep
    · simp only [Bool.not_eq_true] at h
      simp only [h, Bool.false_eq_true, if_false]
      exact ih (fitStep vB patience p.1 p.2 s).1 hstep

/-- The (epoch, batch) projection of the trace extends the incoming trace by
exactly the processed prefix of the schedule. -/
lemma runSched_trace_map (vB : ℕ → ℕ → List ℚ) (patience : ℕ) :
    ∀ (sched : List (ℕ × ℕ)) (s : FitState),
      (runSched vB patience sched s).trace.map (fun t => (t.epoch, t.batchIdx)) =
        s.trace.map (fun t => (t.epoch, t.batchIdx)) ++
          sched.take
            ((runSched vB patience sched s).trace.length - s.trace.length) := by
  intro sched
  induction sched with
  | nil => intro s; simp [runSched]
  | cons p rest ih =>
    intro s
    have hmap : (fitStep vB patience p.1 p.2 s).1.trace.map
        (fun t => (t.epoch, t.batchIdx)) =
        s.trace.map (fun t => (t.epoch, t.batchIdx)) ++ [p] := by
      rw [fitStep_fst_trace]
      simp [fitEntry_epoch, fitEntry_batchIdx]
    have hlen : (fitStep vB patience p.1 p.2 s).1.trace.length =
        s.trace.length + 1 := by
      rw [fitStep_fst_trace]; simp
    simp only [runSched]
    by_cases h : (fitStep vB patience p.1 p.2 s).2 = true
    · simp only [h, if_true]
      simp only [hmap, hlen]
      simp
    · simp only [Bool.not_eq_true] at h
      simp only [h, Bool.false_eq_true, if_false]
      have hge := runSched_trace_length_le vB patience rest (fitStep vB patience p.1 p.2 s).1
      rw [hlen] at hge
      rw [ih (fitStep vB patience p.1 p.2 s).1, hmap, hlen]
      have hsub : (runSched vB patience rest (fitStep vB patience p.1 p.2 s).1).trace.length
          - s.trace.length =
          ((runSched vB patience rest (fitStep vB patience p.1 p.2 s).1).trace.length
            - (s.trace.length + 1)) + 1 := by omega
      rw [hsub, List.take_succ_cons, List.append_assoc]
      rfl

/-- The reference run processes at most the schedule. -/
lemma runSched_trace_length_le_sched (vB : ℕ → ℕ → List ℚ) (patience : ℕ) :
    ∀ (sched : List (ℕ × ℕ)) (s : FitState),
      (runSched vB patience sched s).trace.length ≤ s.trace.length + sched.length := by
  intro sched
  induction sched with
  | nil => intro s; simp [runSched]
  | cons p rest ih =>
    intro s
    have hlen : (fitStep vB patience p.1 p.2 s).1.trace.length =
        s.trace.length + 1 := by
      rw [fitStep_fst_trace]; simp
    simp only [runSched]
    by_cases h : (fitStep vB patience p.1 p.2 s).2 = true
    · simp only [h, if_true, hlen, List.length_cons]
      omega
    · simp only [Bool.not_eq_true] at h
      simp only [h, Bool.false_eq_true, if_false, List.length_cons]
      have := ih (fitStep vB patience p.1 p.2 s).1
      rw [hlen] at this
      omega

/-- If the run never early-stops it processes the entire schedule. -/
lemma runSched_not_stopped_length (vB : ℕ → ℕ → List ℚ) (patience : ℕ) :
    ∀ (sched : List (ℕ × ℕ)) (s : FitState),
      (runSched vB patience sched s).stopped = false → s.stopped = false →
      (runSched vB patience sched s).trace.length = s.trace.length + sched.length := by
  intro sched
  induction sched with
  | nil => intro s _ _; simp [runSched]
  | cons p rest ih =>
    intro s hns hs
    have hlen : (fitStep vB patience p.1 p.2 s).1.trace.length =
        s.trace.length + 1 := by
      rw [fitStep_fst_trace]; simp
    simp only [runSched] at hns ⊢
    by_cases h : (fitStep vB patience p.1 p.2 s).2 = true
    · exfalso
      simp [h] at hns
    · simp only [Bool.not_eq_true] at h
      simp only [h, Bool.false_eq_true, if_false] at hns ⊢
      have hst : (fitStep vB patience p.1 p.2 s).1.stopped = false := by
        rw [fitStep_fst_stopped]; exact hs
      have := ih (fitStep vB patience p.1 p.2 s).1 hns hst
      rw [hlen] at this
      simp only [List.length_cons]
      omega

/-- Structure of the early stop: if the run never stopped, no processed entry
fires the test; if it stopped, the last processed entry fires it and no
earlier one does. -/
lemma runSched_stop_spec (vB : ℕ → ℕ → List ℚ) (patience : ℕ) :
    ∀ (sched : List (ℕ × ℕ)) (s : FitState), s.stopped = false →
      (∀ t ∈ s.trace, ¬ stopCond patience t) →
      ((runSched vB patience sched s).stopped = false →
          ∀ t ∈ (runSched vB patience sched s).trace, ¬ stopCond patience t) ∧
      ((runSched vB patience sched s).stopped = true →
          ∃ t, (runSched vB patience sched s).trace.getLast? = some t ∧
            stopCond patience t ∧
            ∀ t' ∈ (runSched vB patience sched s).trace.dropLast,
              ¬ stopCond patience t') := by
  intro sched
  induction sched with
  | nil =>
    intro s hs htr
    constructor
    · intro _; exact htr
    · intro habs
      rw [runSched] at habs
      rw [hs] at habs
      exact absurd habs (by simp)
  | cons p rest ih =>
    intro s hs htr
    have htrace := fitStep_fst_trace vB patience p.1 p.2 s
    have hsnd := fitStep_snd vB patience p.1 p.2 s
    simp only [runSched]
    by_cases h : (fitStep vB patience p.1 p.2 s).2 = true
    · have hcond : stopCond patience (fitEntry vB p.1 p.2 s) := by
        rw [hsnd] at h
        exact of_decide_eq_true h
      simp only [h, if_true]
      constructor
      · intro habs
        exact absurd habs (by simp)
      · intro _
        refine ⟨fitEntry vB p.1 p.2 s, ?_, hcond, ?_⟩
        · rw [htrace]
          simp
        · rw [htrace]
          simp only [List.dropLast_concat]
          exact htr
    · have hcond : ¬ stopCond patience (fitEntry vB p.1 p.2 s) := by
        rw [hsnd] at h
        intro hc
        exact h (decide_eq_true hc)
      simp only [Bool.not_eq_true] at h
      simp only [h, Bool.false_eq_true, if_false]
      have hst : (fitStep vB patience p.1 p.2 s).1.stopped = false := by
        rw [fitStep_fst_stopped]; exact hs
      have htr' : ∀ t ∈ (fitStep vB patience p.1 p.2 s).1.trace,
          ¬ stopCond patience t := by
        rw [htrace]
        intro t ht
        rcases List.mem_append.1 ht with h' | h'
        · exact htr t h'
        · rcases List.mem_singleton.1 h' with rfl
          exact hcond
      exact ih (fitStep vB patience p.1 p.2 s).1 hst htr'

lemma mem_of_getLast?_eq {α : Type} {l : List α} {t : α}
    (h : l.getLast? = some t) : t ∈ l := by
  rcases List.mem_getLast?_eq_getLast (l := l) (x := t) h with ⟨h1, h2⟩
  subst h2
  exact List.getLast_mem h1

/-- C1: in `MLP.fit`, every processed training batch's bookkeeping step index
is `(i + 1) * (e + 1)`; the processed batches form a prefix of the
epoch-by-epoch schedule; the run exits early exactly when the current step
index strictly exceeds the best-so-far step index plus the early-stopping
patience, the exiting batch is the last one processed (all remaining batches
and epochs are abandoned), no earlier processed batch fires the test, and
when the test never fires the whole schedule is processed. -/
theorem mlp_fit_step_index_and_early_stop (E B patience : ℕ)
    (vB : ℕ → ℕ → List ℚ) :
    (∀ t ∈ (MLPfit E B patience vB).trace,
        t.currentIdx = (t.batchIdx + 1) * (t.epoch + 1)) ∧
    ((MLPfit E B patience vB).trace.map (fun t => (t.epoch, t.batchIdx)) =
        (schedule E B).take (MLPfit E B patience vB).trace.length) ∧
    (∀ t ∈ (MLPfit E B patience vB).trace.dropLast,
        ¬ (t.minIdxAfter + patience < t.currentIdx)) ∧
    ((MLPfit E B patience vB).stopped = true ↔
        ∃ t, (MLPfit E B patience vB).trace.getLast? = some t ∧
          t.minIdxAfter + patience < t.currentIdx) ∧
    ((MLPfit E B patience vB).stopped = false →
        (MLPfit E B patience vB).trace.map (fun t => (t.epoch, t.batchIdx)) =
          schedule E B) := by
  rw [MLPfit_eq_runSched]
  have hspec := runSched_stop_spec vB patience (schedule E B) initFitState rfl
    (by intro t ht; exact absurd ht (by simp [initFitState]))
  refine ⟨?_, ?_, ?_, ?_, ?_⟩
  · refine runSched_trace_forall vB patience _ ?_ (schedule E B) initFitState ?_
    · intro e i s
      rw [fitEntry_currentIdx, fitEntry_batchIdx, fitEntry_epoch]
    · intro t ht
      exact absurd ht (by simp [initFitState])
  · have := runSched_trace_map vB patience (schedule E B) initFitState
    simpa [initFitState] using this
  · intro t ht
    rcases hb : (runSched vB patience (schedule E B) initFitState).stopped with _ | _
    · exact (hspec.1 hb) t (List.dropLast_subset _ ht)
    · rcases hspec.2 hb with ⟨t0, _, _, hrest⟩
      exact hrest t ht
  · constructor
    · intro hb
      rcases hspec.2 hb with ⟨t0, hlast, hcond, _⟩
      exact ⟨t0, hlast, hcond⟩
    · rintro ⟨t, hlast, hcond⟩
      rcases hb : (runSched vB patience (schedule E B) initFitState).stopped with _ | _
      · exact absurd hcond ((hspec.1 hb) t (mem_of_getLast?_eq hlast))
      · rfl
  · intro hb
    have hlen := runSched_not_stopped_length vB patience (schedule E B) initFitState hb rfl
    have hmap := runSched_trace_map vB patience (schedule E B) initFitState
    simp only [initFitState] at hlen hmap ⊢
    simp only [List.map_nil, List.length_nil, Nat.sub_zero,
      List.nil_append] at hlen hmap
    rw [hmap, hlen, Nat.zero_add]
    exact List.take_length (schedule E B)

/-- Witness for C1 at a concrete run (3 epochs, 4 batches, patience 1,
constant validation losses). -/
theorem mlp_fit_step_index_and_early_stop_witness :
    (∀ t ∈ (MLPfit 3 4 1 (fun _ _ => [5])).trace,
        t.currentIdx = (t.batchIdx + 1) * (t.epoch + 1)) ∧
    ((MLPfit 3 4 1 (fun _ _ => [5])).trace.map (fun t => (t.epoch, t.batchIdx)) =
        (schedule 3 4).take (MLPfit 3 4 1 (fun _ _ => [5])).trace.length) ∧
    (∀ t ∈ (MLPfit 3 4 1 (fun _ _ => [5])).trace.dropLast,
        ¬ (t.minIdxAfter + 1 < t.currentIdx)) ∧
    ((MLPfit 3 4 1 (fun _ _ => [5])).stopped = true ↔
        ∃ t, (MLPfit 3 4 1 (fun _ _ => [5])).trace.getLast? = some t ∧
          t.minIdxAfter + 1 < t.currentIdx) ∧
    ((MLPfit 3 4 1 (fun _ _ => [5])).stopped = false →
        (MLPfit 3 4 1 (fun _ _ => [5])).trace.map (fun t => (t.epoch, t.batchIdx)) =
          schedule 3 4) :=
  mlp_fit_step_index_and_early_stop 3 4 1 (fun _ _ => [5])

/-! ### Validation-loss bookkeeping (claims about the running minimum) -/

lemma valAccum_spec (ls : List ℚ) : valAccum ls = (ls.sum, ls.length) := by
  have key : ∀ (l : List ℚ) (a : ℚ) (n : ℕ),
      l.foldl (fun p l => (p.1 + l, p.2 + 1)) (a, n) = (a + l.sum, n + l.length) := by
    intro l
    induction l with
    | nil => intro a n; simp
    | cons x xs ih =>
      intro a n
      simp only [List.foldl_cons, ih, List.sum_cons, List.length_cons]
      refine Prod.ext ?_ ?_ <;> simp <;> ring
  simpa [valAccum] using key ls 0 0

/-- The inner validation loop computes the unweighted mean of the per-batch
losses over the entire validation set. -/
lemma valLoopMean_eq_mean (ls : List ℚ) :
    valLoopMean ls = ls.sum / (ls.length : ℚ) := by
  rw [valLoopMean, valAccum_spec]

/-- Running fold of the minimum, starting from `m`. -/
def foldMin (m : WithTop ℚ) (vs : List ℚ) : WithTop ℚ :=
  vs.foldl (fun a v => min a (v : WithTop ℚ)) m

/-- The list of running minima after each element (the strict running minimum
of the losses seen so far, starting from `m`). -/
def runningMin (m : WithTop ℚ) : List ℚ → List (WithTop ℚ)
  | [] => []
  | v :: vs => min m (v : WithTop ℚ) :: runningMin (min m (v : WithTop ℚ)) vs

lemma foldMin_concat (m : WithTop ℚ) (vs : List ℚ) (v : ℚ) :
    foldMin m (vs ++ [v]) = min (foldMin m vs) (v : WithTop ℚ) := by
  simp [foldMin, List.foldl_append]

lemma runningMin_concat (m : WithTop ℚ) (vs : List ℚ) (v : ℚ) :
    runningMin m (vs ++ [v]) = runningMin m vs ++ [min (foldMin m vs) (v : WithTop ℚ)] := by
  induction vs generalizing m with
  | nil => simp [runningMin, foldMin]
  | cons x xs ih =>
    simp only [List.cons_append, runningMin]
    have hfold : foldMin m (x :: xs) = foldMin (min m (x : WithTop ℚ)) xs := by
      simp [foldMin]
    rw [hfold, show xs.append [v] = xs ++ [v] from rfl, ih]

lemma runningMin_getLastD (m : WithTop ℚ) (vs : List ℚ) :
    (runningMin m vs).getLastD m = foldMin m vs := by
  induction vs generalizing m with
  | nil => simp [runningMin, foldMin]
  | cons v vs ih =>
    simp only [runningMin]
    rw [List.getLastD_cons, ih]
    simp [foldMin]

lemma cons_dropLast_concat {α : Type} (c : α) (L : List α) :
    (c :: L).dropLast ++ [L.getLastD c] = c :: L := by
  induction L generalizing c with
  | nil => simp
  | cons x xs ih =>
    rw [List.getLastD_cons]
    have hdl : (c :: x :: xs).dropLast = c :: (x :: xs).dropLast := by
      simp [List.dropLast]
    rw [hdl, List.cons_append, ih]

/-- The bookkeeping invariant tying the state of `MLP.fit`'s loop to its
trace: the current `min_val_loss` is the running minimum of all validation
losses computed so far (starting from `float("inf")`), the per-entry
before/after minima chain correctly, a "best" checkpoint under "tmp" was
saved exactly for the entries that strictly improved the minimum, and a
saving entry records its own loss and step index. -/
def minInv (s : FitState) : Prop :=
  s.minValLoss = foldMin ⊤ (s.trace.map (fun t => t.valLoss)) ∧
  s.trace.map (fun t => t.minAfter) = runningMin ⊤ (s.trace.map (fun t => t.valLoss)) ∧
  s.trace.map (fun t => t.minBefore) =
    (⊤ :: s.trace.map (fun t => t.minAfter)).dropLast ∧
  s.savedFiles = (s.trace.filter (fun t => t.saved)).map
    (fun _ => (("best" : String), ("tmp" : String))) ∧
  ∀ t ∈ s.trace,
    (t.saved = true ↔ (t.valLoss : WithTop ℚ) < t.minBefore) ∧
    (t.saved = true → t.minAfter = (t.valLoss : WithTop ℚ) ∧ t.minIdxAfter = t.currentIdx) ∧
    (t.saved = false → t.minAfter = t.minBefore)

lemma fitStep_fst_minValLoss (vB : ℕ → ℕ → List ℚ) (patience e i : ℕ) (s : FitState) :
    (fitStep vB patience e i s).1.minValLoss = (fitEntry vB e i s).minAfter := by
  simp only [fitStep, fitEntry]
  split <;> rfl

lemma fitStep_fst_minValLossIdx (vB : ℕ → ℕ → List ℚ) (patience e i : ℕ) (s : FitState) :
    (fitStep vB patience e i s).1.minValLossIdx = (fitEntry vB e i s).minIdxAfter := by
  simp only [fitStep, fitEntry]
  split <;> rfl

lemma fitStep_fst_savedFiles (vB : ℕ → ℕ → List ℚ) (patience e i : ℕ) (s : FitState) :
    (fitStep vB patience e i s).1.savedFiles =
      s.savedFiles ++
        (if (fitEntry vB e i s).saved then [(("best" : String), ("tmp" : String))] else []) := by
  simp only [fitStep, fitEntry]
  split
  · rfl
  · simp

lemma fitEntry_pointwise (vB : ℕ → ℕ → List ℚ) (e i : ℕ) (s : FitState) :
    ((fitEntry vB e i s).saved = true ↔
        ((fitEntry vB e i s).valLoss : WithTop ℚ) < (fitEntry vB e i s).minBefore) ∧
    ((fitEntry vB e i s).saved = true →
        (fitEntry vB e i s).minAfter = ((fitEntry vB e i s).valLoss : WithTop ℚ) ∧
        (fitEntry vB e i s).minIdxAfter = (fitEntry vB e i s).currentIdx) ∧
    ((fitEntry vB e i s).saved = false →
        (fitEntry vB e i s).minAfter = (fitEntry vB e i s).minBefore) := by
  simp only [fitEntry]
  split
  · next h => simp [h]
  · next h => simp [h]

/-- A single loop-body execution preserves the bookkeeping invariant. -/
lemma fitStep_minInv (vB : ℕ → ℕ → List ℚ) (patience e i : ℕ) (s : FitState)
    (hs : minInv s) : minInv (fitStep vB patience e i s).1 := by
  obtain ⟨h1, h2, h3, h4, h5⟩ := hs
  have htrace := fitStep_fst_trace vB patience e i s
  refine ⟨?_, ?_, ?_, ?_, ?_⟩
  · rw [fitStep_fst_minValLoss, htrace]
    simp only [List.map_append, List.map_cons, List.map_nil]
    rw [foldMin_concat, ← h1, fitEntry_minAfter, fitEntry_valLoss, h1]
  · rw [htrace]
    simp only [List.map_append, List.map_cons, List.map_nil]
    rw [runningMin_concat, ← h2, fitEntry_minAfter, fitEntry_valLoss, h1]
  · rw [htrace]
    simp only [List.map_append, List.map_cons, List.map_nil]
    rw [fitEntry_minBefore, h3]
    have hlast : s.minValLoss =
        (s.trace.map (fun t => t.minAfter)).getLastD ⊤ := by
      rw [h1, h2, runningMin_getLastD]
    rw [hlast, cons_dropLast_concat]
    have : (⊤ :: (s.trace.map (fun t => t.minAfter) ++ [(fitEntry vB e i s).minAfter])) =
        (⊤ :: s.trace.map (fun t => t.minAfter)) ++ [(fitEntry vB e i s).minAfter] := by
      simp
    rw [this, List.dropLast_concat]
  · rw [fitStep_fst_savedFiles, htrace, h4]
    rw [List.filter_append, List.map_append]
    congr 1
    by_cases h : (fitEntry vB e i s).saved
    · simp [h]
    · simp only [Bool.not_eq_true] at h
      simp [h]
  · rw [htrace]
    intro t ht
    rcases List.mem_append.1 ht with h | h
    · exact h5 t h
    · rcases List.mem_singleton.1 h with rfl
      exact fitEntry_pointwise vB e i s

/-- The reference run preserves the bookkeeping invariant. -/
lemma runSched_minInv (vB : ℕ → ℕ → List ℚ) (patience : ℕ) :
    ∀ (sched : List (ℕ × ℕ)) (s : FitState), minInv s →
      minInv (runSched vB patience sched s) := by
  intro sched
  induction sched with
  | nil => intro s hs; exact hs
  | cons p rest ih =>
    intro s hs
    have hstep := fitStep_minInv vB patience p.1 p.2 s hs
    simp only [runSched]
    by_cases h : (fitStep vB patience p.1 p.2 s).2 = true
    · simp only [h, if_true]
      exact hstep
    · simp only [Bool.not_eq_true] at h
      simp only [h, Bool.false_eq_true, if_false]
      exact ih (fitStep vB patience p.1 p.2 s).1 hstep

lemma initFitState_minInv : minInv initFitState := by
  refine ⟨rfl, rfl, rfl, rfl, ?_⟩
  intro t ht
  exact absurd ht (by simp [initFitState])

lemma MLPfit_minInv (E B patience : ℕ) (vB : ℕ → ℕ → List ℚ) :
    minInv (MLPfit E B patience vB) := by
  rw [MLPfit_eq_runSched]
  exact runSched_minInv vB patience (schedule E B) initFitState initFitState_minInv

/-- C4: in `MLP.fit`, one validation loss is computed after every single
processed training batch (the trace walks the per-batch schedule), each such
loss is the unweighted mean of per-batch losses over the entire validation
set, the recorded minimum always equals the strict running minimum of all
validation losses computed so far (starting from infinity), a batch updates
the recorded minimum and step index exactly when its validation loss strictly
improves on the minimum seen so far, and exactly those batches persist a
"best" checkpoint under the "tmp" directory. -/
theorem mlp_fit_validation_bookkeeping (E B patience : ℕ) (vB : ℕ → ℕ → List ℚ) :
    ((MLPfit E B patience vB).trace.map (fun t => (t.epoch, t.batchIdx)) =
        (schedule E B).take (MLPfit E B patience vB).trace.length) ∧
    (∀ t ∈ (MLPfit E B patience vB).trace,
        t.valLoss = (vB t.epoch t.batchIdx).sum / ((vB t.epoch t.batchIdx).length : ℚ)) ∧
    ((MLPfit E B patience vB).minValLoss =
        foldMin ⊤ ((MLPfit E B patience vB).trace.map (fun t => t.valLoss))) ∧
    ((MLPfit E B patience vB).trace.map (fun t => t.minAfter) =
        runningMin ⊤ ((MLPfit E B patience vB).trace.map (fun t => t.valLoss))) ∧
    (∀ t ∈ (MLPfit E B patience vB).trace,
        (t.saved = true ↔ (t.valLoss : WithTop ℚ) < t.minBefore) ∧
        (t.saved = true →
          t.minAfter = (t.valLoss : WithTop ℚ) ∧ t.minIdxAfter = t.currentIdx)) ∧
    ((MLPfit E B patience vB).savedFiles =
        ((MLPfit E B patience vB).trace.filter (fun t => t.saved)).map
          (fun _ => (("best" : String), ("tmp" : String)))) := by
  obtain ⟨h1, h2, _, h4, h5⟩ := MLPfit_minInv E B patience vB
  refine ⟨?_, ?_, h1, h2, ?_, h4⟩
  · rw [MLPfit_eq_runSched]
    have := runSched_trace_map vB patience (schedule E B) initFitState
    simpa [initFitState] using this
  · rw [MLPfit_eq_runSched]
    refine runSched_trace_forall vB patience _ ?_ (schedule E B) initFitState ?_
    · intro e i s
      rw [fitEntry_valLoss, fitEntry_epoch, fitEntry_batchIdx, valLoopMean_eq_mean]
    · intro t ht
      exact absurd ht (by simp [initFitState])
  · intro t ht
    exact ⟨(h5 t ht).1, (h5 t ht).2.1⟩

/-- Witness for C4 at a concrete run (2 epochs, 3 batches, patience 5,
varying validation losses). -/
theorem mlp_fit_validation_bookkeeping_witness :
    ((MLPfit 2 3 5 (fun e i => [(e : ℚ) + i, 2])).trace.map (fun t => (t.epoch, t.batchIdx)) =
        (schedule 2 3).take (MLPfit 2 3 5 (fun e i => [(e : ℚ) + i, 2])).trace.length) ∧
    (∀ t ∈ (MLPfit 2 3 5 (fun e i => [(e : ℚ) + i, 2])).trace,
        t.valLoss = ((fun (e i : ℕ) => [(e : ℚ) + i, 2]) t.epoch t.batchIdx).sum /
          (((fun (e i : ℕ) => [(e : ℚ) + i, 2]) t.epoch t.batchIdx).length : ℚ)) ∧
    ((MLPfit 2 3 5 (fun e i => [(e : ℚ) + i, 2])).minValLoss =
        foldMin ⊤ ((MLPfit 2 3 5 (fun e i => [(e : ℚ) + i, 2])).trace.map (fun t => t.valLoss))) ∧
    ((MLPfit 2 3 5 (fun e i => [(e : ℚ) + i, 2])).trace.map (fun t => t.minAfter) =
        runningMin ⊤ ((MLPfit 2 3 5 (fun e i => [(e : ℚ) + i, 2])).trace.map (fun t => t.valLoss))) ∧
    (∀ t ∈ (MLPfit 2 3 5 (fun e i => [(e : ℚ) + i, 2])).trace,
        (t.saved = true ↔ (t.valLoss : WithTop ℚ) < t.minBefore) ∧
        (t.saved = true →
          t.minAfter = (t.valLoss : WithTop ℚ) ∧ t.minIdxAfter = t.currentIdx)) ∧
    ((MLPfit 2 3 5 (fun e i => [(e : ℚ) + i, 2])).savedFiles =
        ((MLPfit 2 3 5 (fun e i => [(e : ℚ) + i, 2])).trace.filter (fun t => t.saved)).map
          (fun _ => (("best" : String), ("tmp" : String)))) :=
  mlp_fit_validation_bookkeeping 2 3 5 (fun e i => [(e : ℚ) + i, 2])

/-! ### The model registry -/

/-- C6: `str2model` maps each of the eighteen enumerated identifiers to its
implementation, and any other string to a not-implemented error embedding the
offending name verbatim as `Model "name" not yet implemented`. -/
theorem str2model_spec :
    ((str2model "LinearModel" = .ok .LinearModel) ∧
     (str2model "KNN" = .ok .KNN) ∧
     (str2model "SVM" = .ok .SVM) ∧
     (str2model "DecisionTree" = .ok .DecisionTree) ∧
     (str2model "RandomForest" = .ok .RandomForest) ∧
     (str2model "XGBoost" = .ok .XGBoost) ∧
     (str2model "CatBoost" = .ok .CatBoost) ∧
     (str2model "LightGBM" = .ok .LightGBM) ∧
     (str2model "MLP" = .ok .MLP) ∧
     (str2model "ModelTree" = .ok .ModelTree) ∧
     (str2model "TabNet" = .ok .TabNet) ∧
     (str2model "VIME" = .ok .VIME) ∧
     (str2model "TabTransformer" = .ok .TabTransformer) ∧
     (str2model "NODE" = .ok .NODE) ∧
     (str2model "DeepGBM" = .ok .DeepGBM) ∧
     (str2model "RLN" = .ok .RLN) ∧
     (str2model "DNFNet" = .ok .DNFNet) ∧
     (str2model "STG" = .ok .STG)) ∧
    (∀ m : String, m ∉ registryNames →
      str2model m = .error ("Model \"" ++ m ++ "\" not yet implemented")) := by
  constructor
  · exact ⟨rfl, rfl, rfl, rfl, rfl, rfl, rfl, rfl, rfl, rfl, rfl, rfl, rfl,
      rfl, rfl, rfl, rfl, rfl⟩
  · intro m hm
    simp only [registryNames, List.mem_cons, List.not_mem_nil, or_false, not_or] at hm
    obtain ⟨h1, h2, h3, h4, h5, h6, h7, h8, h9, h10, h11, h12, h13, h14, h15,
      h16, h17, h18⟩ := hm
    unfold str2model
    rw [if_neg h1, if_neg h2, if_neg h3, if_neg h4, if_neg h5, if_neg h6,
      if_neg h7, if_neg h8, if_neg h9, if_neg h10, if_neg h11, if_neg h12,
      if_neg h13, if_neg h14, if_neg h15, if_neg h16, if_neg h17, if_neg h18]

/-- Witness for C6: an unregistered name produces the verbatim error. -/
theorem str2model_spec_witness :
    str2model "nonexistent-model" =
      .error ("Model \"" ++ "nonexistent-model" ++ "\" not yet implemented") :=
  str2model_spec.2 "nonexistent-model" (by decide)

/-! ### The evaluation driver -/

/-- Function `numpy.argmax` over a one-dimensional array: the index of the first
occurrence of the maximum value (head wins ties against the tail). -/
def argmaxIdx : List ℚ → ℕ
  | [] => 0
  | v :: vs => if vs.all (fun x => decide (x ≤ v)) then 0 else argmaxIdx vs + 1

lemma argmaxIdx_lt_length : ∀ (l : List ℚ), l ≠ [] → argmaxIdx l < l.length := by
  intro l
  induction l with
  | nil => intro h; exact absurd rfl h
  | cons v vs ih =>
    intro _
    by_cases h : vs.all (fun x => decide (x ≤ v)) = true
    · simp [argmaxIdx, h]
    · have hvs : vs ≠ [] := by
        rintro rfl
        simp at h
      simp only [argmaxIdx, h, Bool.false_eq_true, if_false, List.length_cons]
      exact Nat.succ_lt_succ (ih hvs)

lemma argmaxIdx_is_max : ∀ (l : List ℚ), ∀ x ∈ l, x ≤ l.getD (argmaxIdx l) 0 := by
  intro l
  induction l with
  | nil => intro x hx; exact absurd hx (by simp)
  | cons v vs ih =>
    intro x hx
    by_cases h : vs.all (fun x => decide (x ≤ v)) = true
    · simp only [argmaxIdx, h, if_true, List.getD_cons_zero]
      rcases List.mem_cons.1 hx with rfl | hx'
      · exact le_refl x
      · exact of_decide_eq_true (List.all_eq_true.1 h x hx')
    · simp only [argmaxIdx, h, Bool.false_eq_true, if_false, List.getD_cons_succ]
      have hex : ∃ y ∈ vs, v < y := by
        by_contra hno
        push_neg at hno
        exact h (List.all_eq_true.2 (fun y hy => decide_eq_true (hno y hy)))
      rcases List.mem_cons.1 hx with rfl | hx'
      · rcases hex with ⟨y, hy, hvy⟩
        exact le_of_lt (lt_of_lt_of_le hvy (ih y hy))
      · exact ih x hx'

lemma argmaxIdx_first : ∀ (l : List ℚ), ∀ i < argmaxIdx l,
    l.getD i 0 < l.getD (argmaxIdx l) 0 := by
  intro l
  induction l with
  | nil => intro i hi; exact absurd hi (by simp [argmaxIdx])
  | cons v vs ih =>
    intro i hi
    by_cases h : vs.all (fun x => decide (x ≤ v)) = true
    · rw [argmaxIdx] at hi
      simp [h] at hi
    · have hex : ∃ y ∈ vs, v < y := by
        by_contra hno
        push_neg at hno
        exact h (List.all_eq_true.2 (fun y hy => decide_eq_true (hno y hy)))
      simp only [argmaxIdx, h, Bool.false_eq_true, if_false, List.getD_cons_succ] at hi ⊢
      match i with
      | 0 =>
        simp only [List.getD_cons_zero]
        rcases hex with ⟨y, hy, hvy⟩
        exact lt_of_lt_of_le hvy (argmaxIdx_is_max vs y hy)
      | Nat.succ i' =>
        simp only [List.getD_cons_succ]
        exact ih i' (Nat.lt_of_succ_lt_succ hi)

/-- The Scorer contract: an accumulator with `eval` (fed one
(truth, predicted-label, raw-output) triple per record) and a final
`get_results` reduction. -/
structure Scorer (S R : Type) where
  init : S
  eval : S → (List ℚ × List ℕ × List (List ℚ)) → S
  get_results : S → R

/-- The arguments the driver passes to `scorer.eval` for one Prediction
Record: `truth = pred[:, 0]`, `out = pred[:, 1:]`,
`pred_label = np.argmax(out, axis=1)`. -/
def recordArgs (pred : List (List ℚ)) : List ℚ × List ℕ × List (List ℚ) :=
  (pred.map (fun row => row.getD 0 0),
   (pred.map (fun row => row.tail)).map argmaxIdx,
   pred.map (fun row => row.tail))

/-- The `for pred in predictions` loop of `main` in src/evaluate.py. -/
def evalLoop {S R : Type} (sc : Scorer S R) : List (List (List ℚ)) → S → S
  | [], s => s
  | pred :: rest, s =>
    let truth := pred.map (fun row => row.getD 0 0)
    let out := pred.map (fun row => row.tail)
    let pred_label := out.map argmaxIdx
    evalLoop sc rest (sc.eval s (truth, pred_label, out))

/-- Function `main` of src/evaluate.py: iterate the records, then a single
`get_results`. -/
def evaluateMain {S R : Type} (sc : Scorer S R)
    (predictions : List (List (List ℚ))) : R :=
  sc.get_results (evalLoop sc predictions sc.init)

lemma evalLoop_eq_foldl {S R : Type} (sc : Scorer S R) :
    ∀ (preds : List (List (List ℚ))) (s : S),
      evalLoop sc preds s = preds.foldl (fun s p => sc.eval s (recordArgs p)) s := by
  intro preds
  induction preds with
  | nil => intro s; rfl
  | cons p rest ih =>
    intro s
    simp only [evalLoop, List.foldl_cons, recordArgs]
    exact ih _

/-- C5: the Evaluation Driver's `main` makes exactly one `eval` call per
Prediction Record, in record order, passing (column 0 as ground truth,
per-row argmax over the remaining columns as predicted label, the remaining
columns as raw output), followed by a single `get_results` over the
accumulated state; and for every row with at least one output column the
predicted label is the first index attaining the maximum of the output
columns. -/
theorem evaluate_main_spec {S R : Type} (sc : Scorer S R)
    (preds : List (List (List ℚ))) (row : List ℚ) (hrow : row.tail ≠ []) :
    (evaluateMain sc preds =
      sc.get_results (preds.foldl (fun s p => sc.eval s (recordArgs p)) sc.init)) ∧
    (∀ p : List (List ℚ), recordArgs p =
      (p.map (fun row => row.getD 0 0),
       p.map (fun row => argmaxIdx row.tail),
       p.map (fun row => row.tail))) ∧
    (argmaxIdx row.tail < row.tail.length ∧
     (∀ x ∈ row.tail, x ≤ row.tail.getD (argmaxIdx row.tail) 0) ∧
     (∀ i < argmaxIdx row.tail,
        row.tail.getD i 0 < row.tail.getD (argmaxIdx row.tail) 0)) := by
  refine ⟨?_, ?_, ?_, ?_, ?_⟩
  · rw [evaluateMain, evalLoop_eq_foldl]
  · intro p
    simp [recordArgs, List.map_map]
  · exact argmaxIdx_lt_length row.tail hrow
  · exact argmaxIdx_is_max row.tail
  · exact argmaxIdx_first row.tail

/-- Witness for C5: a concrete logging scorer over one 2-row, 3-column
record. -/
theorem evaluate_main_spec_witness :
    (evaluateMain ⟨([] : List (List ℚ × List ℕ × List (List ℚ))),
        fun s a => s ++ [a], id⟩ [[[1, 0, 2], [0, 3, 1]]] =
      ([[[1, 0, 2], [0, 3, 1]]].foldl
        (fun s p =>
          (⟨([] : List (List ℚ × List ℕ × List (List ℚ))),
            fun s a => s ++ [a], id⟩ : Scorer _ _).eval s (recordArgs p))
        [])) ∧
    (∀ p : List (List ℚ), recordArgs p =
      (p.map (fun row => row.getD 0 0),
       p.map (fun row => argmaxIdx row.tail),
       p.map (fun row => row.tail))) ∧
    (argmaxIdx ([1, 0, 2] : List ℚ).tail < ([1, 0, 2] : List ℚ).tail.length ∧
     (∀ x ∈ ([1, 0, 2] : List ℚ).tail,
        x ≤ ([1, 0, 2] : List ℚ).tail.getD (argmaxIdx ([1, 0, 2] : List ℚ).tail) 0) ∧
     (∀ i < argmaxIdx ([1, 0, 2] : List ℚ).tail,
        ([1, 0, 2] : List ℚ).tail.getD i 0 <
          ([1, 0, 2] : List ℚ).tail.getD (argmaxIdx ([1, 0, 2] : List ℚ).tail) 0)) :=
  evaluate_main_spec ⟨[], fun s a => s ++ [a], id⟩ [[[1, 0, 2], [0, 3, 1]]]
    [1, 0, 2] (by decide)

/-! ### The attribution helper -/

/-- A NumPy array of one or two dimensions, as `model.predict` may return it
to the attribution helper. -/
inductive NpArray
  | d1 (v : List ℚ)
  | d2 (m : List (List ℚ))
  deriving DecidableEq, Repr

/-- Function `get_probabilistic_predictions` from src/utils/baseline_attributions.py:
`ypred = model.predict(X); if len(ypred.shape) == 2: ypred = ypred[:, -1];
return ypred`. The slice `[:, -1]` takes each row's last entry. -/
def get_probabilistic_predictions {X : Type} (predict : X → NpArray) (x : X) :
    NpArray :=
  match predict x with
  | .d2 m => .d1 (m.map (fun row => row.getLastD 0))
  | .d1 v => .d1 v

/-- C8: `get_probabilistic_predictions` calls `model.predict`; on a
two-dimensional result it returns the last column as a one-dimensional
vector of the same row count (column index 1 for two-column rows), and
on a one-dimensional result it returns the prediction unchanged. -/
theorem get_probabilistic_predictions_spec {X : Type} (predict : X → NpArray)
    (x : X) (m : List (List ℚ)) (hm : predict x = .d2 m)
    (row : List ℚ) (hrow : row ∈ m) (h2 : row.length = 2) :
    (get_probabilistic_predictions predict x =
      .d1 (m.map (fun r => r.getLastD 0))) ∧
    ((m.map (fun r => r.getLastD 0)).length = m.length) ∧
    (row.getLastD 0 = row.getD 1 0) ∧
    (∀ (p2 : X → NpArray) (y : X) (v : List ℚ), p2 y = .d1 v →
      get_probabilistic_predictions p2 y = .d1 v) := by
  refine ⟨?_, ?_, ?_, ?_⟩
  · rw [get_probabilistic_predictions, hm]
  · exact List.length_map m _
  · match row, h2 with
    | [a, b], _ => rfl
  · intro p2 y v hv
    rw [get_probabilistic_predictions, hv]

/-- Witness for C8 at a concrete two-column prediction. -/
theorem get_probabilistic_predictions_spec_witness :
    (get_probabilistic_predictions (fun _ : ℕ => NpArray.d2 [[1, 2], [3, 4]]) 0 =
      .d1 ([[1, 2], [3, 4]].map (fun r => r.getLastD 0))) ∧
    (([[1, 2], [3, 4]].map (fun r : List ℚ => r.getLastD 0)).length =
      ([[1, 2], [3, 4]] : List (List ℚ)).length) ∧
    (([1, 2] : List ℚ).getLastD 0 = ([1, 2] : List ℚ).getD 1 0) ∧
    (∀ (p2 : ℕ → NpArray) (y : ℕ) (v : List ℚ), p2 y = .d1 v →
      get_probabilistic_predictions p2 y = .d1 v) :=
  get_probabilistic_predictions_spec (fun _ : ℕ => NpArray.d2 [[1, 2], [3, 4]]) 0
    [[1, 2], [3, 4]] rfl [1, 2] (by simp) (by decide)

/-! ### The feed-forward network over the reals

The network mathematics of src/models/mlp.py is embedded over `ℝ`
(the floating-point runtime's arithmetic idealised to real arithmetic):
affine layers, ReLU, softmax, sigmoid, and the three torch loss functions
with mean reduction. -/

noncomputable section

/-- A `torch.nn.Linear(inDim, outDim)` layer: weight matrix and bias. -/
structure LinearLayer (outDim inDim : ℕ) where
  weight : Fin outDim → Fin inDim → ℝ
  bias : Fin outDim → ℝ

/-- Applying a linear layer: `W x + b`. -/
def LinearLayer.apply {o i : ℕ} (l : LinearLayer o i) (x : Fin i → ℝ) :
    Fin o → ℝ :=
  fun j => (∑ k, l.weight j k * x k) + l.bias j

/-- Activation `F.relu`, componentwise. -/
def reluV {n : ℕ} (x : Fin n → ℝ) : Fin n → ℝ := fun i => max (x i) 0

/-- Transform `F.softmax(x, dim=1)`, one row. -/
def softmax {n : ℕ} (x : Fin n → ℝ) : Fin n → ℝ :=
  fun i => Real.exp (x i) / ∑ j, Real.exp (x j)

/-- Function `torch.sigmoid`. -/
def sigmoid (x : ℝ) : ℝ := 1 / (1 + Real.exp (-x))

/-- The parameters held by an `MLP` instance: the input layer, the list of
equal-width hidden layers, and the output layer. -/
structure MLPModel (inD hid outD : ℕ) where
  input_layer : LinearLayer hid inD
  layers : List (LinearLayer hid hid)
  output_layer : LinearLayer outD hid

/-- Constructor `MLP.__init__`: one input layer, `n_layers - 1` hidden layers built from
`initHidden`, one output layer. -/
def buildMLP (inD hid outD nLayers : ℕ) (initIn : LinearLayer hid inD)
    (initHidden : ℕ → LinearLayer hid hid) (initOut : LinearLayer outD hid) :
    MLPModel inD hid outD :=
  { input_layer := initIn
    layers := (List.range (nLayers - 1)).map initHidden
    output_layer := initOut }

/-- Method `MLP.forward`: ReLU after the input layer, ReLU after every hidden
layer, no activation on the output layer, softmax if the objective is
classification. -/
def mlpForward {inD hid outD : ℕ} (m : MLPModel inD hid outD)
    (obj : Objective) (x : Fin inD → ℝ) : Fin outD → ℝ :=
  let x1 := reluV (m.input_layer.apply x)
  let x2 := m.layers.foldl (fun a l => reluV (l.apply a)) x1
  let x3 := m.output_layer.apply x2
  if obj = .classification then softmax x3 else x3

/-- The output of the network before the optional softmax. -/
def rawScores {inD hid outD : ℕ} (m : MLPModel inD hid outD)
    (x : Fin inD → ℝ) : Fin outD → ℝ :=
  m.output_layer.apply
    (m.layers.foldl (fun a l => reluV (l.apply a)) (reluV (m.input_layer.apply x)))

/-- Method `MLP.forward` instrumented with counters: the same computation together
with (number of affine-layer applications, number of ReLU applications). -/
def mlpForwardCounted {inD hid outD : ℕ} (m : MLPModel inD hid outD)
    (obj : Objective) (x : Fin inD → ℝ) : (Fin outD → ℝ) × ℕ × ℕ :=
  let s1 : (Fin hid → ℝ) × ℕ × ℕ := (reluV (m.input_layer.apply x), 1, 1)
  let s2 := m.layers.foldl
    (fun s l => (reluV (l.apply s.1), s.2.1 + 1, s.2.2 + 1)) s1
  let out := m.output_layer.apply s2.1
  ((if obj = .classification then softmax out else out), s2.2.1 + 1, s2.2.2)

lemma mlpForward_eq_rawScores {inD hid outD : ℕ} (m : MLPModel inD hid outD)
    (obj : Objective) (x : Fin inD → ℝ) :
    mlpForward m obj x =
      if obj = .classification then softmax (rawScores m x) else rawScores m x := by
  rfl

lemma mlpForward_not_classification {inD hid outD : ℕ} (m : MLPModel inD hid outD)
    (obj : Objective) (hobj : obj ≠ .classification) (x : Fin inD → ℝ) :
    mlpForward m obj x = rawScores m x := by
  rw [mlpForward_eq_rawScores, if_neg hobj]

lemma counted_foldl {hid : ℕ} (ls : List (LinearLayer hid hid)) :
    ∀ (v : Fin hid → ℝ) (a r : ℕ),
      ls.foldl (fun (s : (Fin hid → ℝ) × ℕ × ℕ) l =>
          (reluV (l.apply s.1), s.2.1 + 1, s.2.2 + 1)) (v, a, r) =
        (ls.foldl (fun acc l => reluV (l.apply acc)) v, a + ls.length, r + ls.length) := by
  induction ls with
  | nil => intro v a r; simp
  | cons l ls ih =>
    intro v a r
    simp only [List.foldl_cons, ih, List.length_cons]
    refine Prod.ext rfl (Prod.ext ?_ ?_) <;> simp <;> omega

lemma mlpForwardCounted_spec {inD hid outD : ℕ} (m : MLPModel inD hid outD)
    (obj : Objective) (x : Fin inD → ℝ) :
    mlpForwardCounted m obj x =
      (mlpForward m obj x, 2 + m.layers.length, 1 + m.layers.length) := by
  simp only [mlpForwardCounted, mlpForward, counted_foldl]
  refine Prod.ext rfl (Prod.ext ?_ ?_) <;> simp <;> omega

/-- C10: with hyperparameter `n_layers = k ≥ 1` the constructor builds
`k - 1` equal-width hidden layers, hence `k + 1` affine layers in total
(input layer, hidden layers, output layer); the forward pass applies the
affine layers `k + 1` times and ReLU exactly `k` times (after the input
layer and after each of the `k - 1` hidden layers, never after the output
layer), so `n_layers` counts the input layer among the hidden layers. -/
theorem mlp_layer_count (inD hid outD nLayers : ℕ) (hk : 1 ≤ nLayers)
    (initIn : LinearLayer hid inD) (initHidden : ℕ → LinearLayer hid hid)
    (initOut : LinearLayer outD hid) (obj : Objective) (x : Fin inD → ℝ) :
    ((buildMLP inD hid outD nLayers initIn initHidden initOut).layers.length =
      nLayers - 1) ∧
    (1 + (buildMLP inD hid outD nLayers initIn initHidden initOut).layers.length + 1 =
      nLayers + 1) ∧
    ((mlpForwardCounted (buildMLP inD hid outD nLayers initIn initHidden initOut)
        obj x).2.1 = nLayers + 1) ∧
    ((mlpForwardCounted (buildMLP inD hid outD nLayers initIn initHidden initOut)
        obj x).2.2 = nLayers) ∧
    ((mlpForwardCounted (buildMLP inD hid outD nLayers initIn initHidden initOut)
        obj x).1 =
      mlpForward (buildMLP inD hid outD nLayers initIn initHidden initOut) obj x) := by
  have hlen : (buildMLP inD hid outD nLayers initIn initHidden initOut).layers.length =
      nLayers - 1 := by
    simp [buildMLP]
  refine ⟨hlen, ?_, ?_, ?_, ?_⟩
  · rw [hlen]; omega
  · rw [mlpForwardCounted_spec, hlen]
    show 2 + (nLayers - 1) = nLayers + 1
    omega
  · rw [mlpForwardCounted_spec, hlen]
    show 1 + (nLayers - 1) = nLayers
    omega
  · rw [mlpForwardCounted_spec]

/-- Witness for C10 at `n_layers = 3` with zero weights. -/
theorem mlp_layer_count_witness :
    ((buildMLP 2 3 1 3 ⟨fun _ _ => 0, fun _ => 0⟩ (fun _ => ⟨fun _ _ => 0, fun _ => 0⟩)
        ⟨fun _ _ => 0, fun _ => 0⟩).layers.length = 3 - 1) ∧
    (1 + (buildMLP 2 3 1 3 ⟨fun _ _ => 0, fun _ => 0⟩
        (fun _ => ⟨fun _ _ => 0, fun _ => 0⟩) ⟨fun _ _ => 0, fun _ => 0⟩).layers.length + 1 =
      3 + 1) ∧
    ((mlpForwardCounted (buildMLP 2 3 1 3 ⟨fun _ _ => 0, fun _ => 0⟩
        (fun _ => ⟨fun _ _ => 0, fun _ => 0⟩) ⟨fun _ _ => 0, fun _ => 0⟩)
        .regression (fun _ => 0)).2.1 = 3 + 1) ∧
    ((mlpForwardCounted (buildMLP 2 3 1 3 ⟨fun _ _ => 0, fun _ => 0⟩
        (fun _ => ⟨fun _ _ => 0, fun _ => 0⟩) ⟨fun _ _ => 0, fun _ => 0⟩)
        .regression (fun _ => 0)).2.2 = 3) ∧
    ((mlpForwardCounted (buildMLP 2 3 1 3 ⟨fun _ _ => 0, fun _ => 0⟩
        (fun _ => ⟨fun _ _ => 0, fun _ => 0⟩) ⟨fun _ _ => 0, fun _ => 0⟩)
        .regression (fun _ => 0)).1 =
      mlpForward (buildMLP 2 3 1 3 ⟨fun _ _ => 0, fun _ => 0⟩
        (fun _ => ⟨fun _ _ => 0, fun _ => 0⟩) ⟨fun _ _ => 0, fun _ => 0⟩)
        .regression (fun _ => 0)) :=
  mlp_layer_count 2 3 1 3 (by decide) ⟨fun _ _ => 0, fun _ => 0⟩
    (fun _ => ⟨fun _ _ => 0, fun _ => 0⟩) ⟨fun _ _ => 0, fun _ => 0⟩
    .regression (fun _ => 0)

lemma mlpForward_classification {inD hid outD : ℕ} (m : MLPModel inD hid outD)
    (x : Fin inD → ℝ) :
    mlpForward m .classification x = softmax (rawScores m x) := by
  rw [mlpForward_eq_rawScores, if_pos rfl]

lemma softmax_sum_eq_one {n : ℕ} (h : 0 < n) (x : Fin n → ℝ) :
    (∑ j, softmax x j) = 1 := by
  have hne : Nonempty (Fin n) := ⟨⟨0, h⟩⟩
  have hpos : (0 : ℝ) < ∑ j, Real.exp (x j) :=
    Finset.sum_pos (fun j _ => Real.exp_pos (x j)) Finset.univ_nonempty
  simp only [softmax]
  rw [← Finset.sum_div]
  exact div_self (ne_of_gt hpos)

/-- C7: `MLP.forward` is the affine/ReLU stack with no activation on the
output layer, except that the classification objective applies softmax to
the output; consequently every classification forward-pass row sums to
exactly 1, in particular to 1 within 1e-6. -/
theorem mlp_forward_softmax_rows (inD hid outD : ℕ) (h : 0 < outD)
    (m : MLPModel inD hid outD) (x : Fin inD → ℝ) :
    (mlpForward m .classification x = softmax (rawScores m x)) ∧
    (∀ obj : Objective, obj ≠ .classification → mlpForward m obj x = rawScores m x) ∧
    (rawScores m x = m.output_layer.apply
      (m.layers.foldl (fun a l => reluV (l.apply a)) (reluV (m.input_layer.apply x)))) ∧
    ((∑ j, mlpForward m .classification x j) = 1) ∧
    (|(∑ j, mlpForward m .classification x j) - 1| ≤ 1 / 1000000) := by
  have hsum : (∑ j, mlpForward m .classification x j) = 1 := by
    rw [mlpForward_classification]
    exact softmax_sum_eq_one h (rawScores m x)
  refine ⟨mlpForward_classification m x, ?_, rfl, hsum, ?_⟩
  · intro obj hobj
    exact mlpForward_not_classification m obj hobj x
  · rw [hsum]
    norm_num

/-- Witness for C7 at a concrete classification network with zero weights. -/
theorem mlp_forward_softmax_rows_witness :
    (mlpForward (⟨⟨fun _ _ => 0, fun _ => 0⟩, [], ⟨fun _ _ => 0, fun _ => 0⟩⟩ :
        MLPModel 2 3 2) .classification (fun _ => 0) =
      softmax (rawScores (⟨⟨fun _ _ => 0, fun _ => 0⟩, [], ⟨fun _ _ => 0, fun _ => 0⟩⟩ :
        MLPModel 2 3 2) (fun _ => 0))) ∧
    (∀ obj : Objective, obj ≠ .classification →
      mlpForward (⟨⟨fun _ _ => 0, fun _ => 0⟩, [], ⟨fun _ _ => 0, fun _ => 0⟩⟩ :
          MLPModel 2 3 2) obj (fun _ => 0) =
        rawScores (⟨⟨fun _ _ => 0, fun _ => 0⟩, [], ⟨fun _ _ => 0, fun _ => 0⟩⟩ :
          MLPModel 2 3 2) (fun _ => 0)) ∧
    (rawScores (⟨⟨fun _ _ => 0, fun _ => 0⟩, [], ⟨fun _ _ => 0, fun _ => 0⟩⟩ :
        MLPModel 2 3 2) (fun _ => 0) =
      (⟨⟨fun _ _ => 0, fun _ => 0⟩, [], ⟨fun _ _ => 0, fun _ => 0⟩⟩ :
        MLPModel 2 3 2).output_layer.apply
        ((⟨⟨fun _ _ => 0, fun _ => 0⟩, [], ⟨fun _ _ => 0, fun _ => 0⟩⟩ :
          MLPModel 2 3 2).layers.foldl (fun a l => reluV (l.apply a))
          (reluV ((⟨⟨fun _ _ => 0, fun _ => 0⟩, [], ⟨fun _ _ => 0, fun _ => 0⟩⟩ :
            MLPModel 2 3 2).input_layer.apply (fun _ => 0))))) ∧
    ((∑ j, mlpForward (⟨⟨fun _ _ => 0, fun _ => 0⟩, [], ⟨fun _ _ => 0, fun _ => 0⟩⟩ :
        MLPModel 2 3 2) .classification (fun _ => 0) j) = 1) ∧
    (|(∑ j, mlpForward (⟨⟨fun _ _ => 0, fun _ => 0⟩, [], ⟨fun _ _ => 0, fun _ => 0⟩⟩ :
        MLPModel 2 3 2) .classification (fun _ => 0) j) - 1| ≤ 1 / 1000000) :=
  mlp_forward_softmax_rows 2 3 2 (by decide)
    ⟨⟨fun _ _ => 0, fun _ => 0⟩, [], ⟨fun _ _ => 0, fun _ => 0⟩⟩ (fun _ => 0)

/-! ### Loss selection in `MLP.fit` -/

/-- Operation `out.squeeze()` on a singleton output dimension. -/
def squeeze1 (v : Fin 1 → ℝ) : ℝ := v 0

/-- Loss `torch.nn.MSELoss()` with mean reduction over a batch of scalar
(prediction, target) pairs. -/
def mseLoss (pairs : List (ℝ × ℝ)) : ℝ :=
  (pairs.map (fun p => (p.1 - p.2) ^ 2)).sum / (pairs.length : ℝ)

/-- Loss `torch.nn.BCEWithLogitsLoss()` with mean reduction: sigmoid
cross-entropy computed from raw logits. -/
def bceWithLogitsLoss (pairs : List (ℝ × ℝ)) : ℝ :=
  (pairs.map (fun p =>
    -(p.2 * Real.log (sigmoid p.1) + (1 - p.2) * Real.log (1 - sigmoid p.1)))).sum /
    (pairs.length : ℝ)

/-- Loss `torch.nn.CrossEntropyLoss()` with mean reduction on per-class scores
with class-index targets: log-sum-exp of the scores minus the target
score. -/
def crossEntropyLoss {c : ℕ} (pairs : List ((Fin c → ℝ) × Fin c)) : ℝ :=
  (pairs.map (fun p => Real.log (∑ j, Real.exp (p.1 j)) - p.1 p.2)).sum /
    (pairs.length : ℝ)

/-- One training-batch loss of `MLP.fit` for the regression objective:
`nn.MSELoss()(self.forward(batch_X).squeeze(), batch_y.float())`. -/
def fitBatchLossRegression {inD hid : ℕ} (m : MLPModel inD hid 1)
    (batch : List ((Fin inD → ℝ) × ℤ)) : ℝ :=
  mseLoss (batch.map (fun p => (squeeze1 (mlpForward m .regression p.1), (p.2 : ℝ))))

/-- One training-batch loss of `MLP.fit` for the binary objective:
`nn.BCEWithLogitsLoss()(self.forward(batch_X).squeeze(), batch_y.float())`. -/
def fitBatchLossBinary {inD hid : ℕ} (m : MLPModel inD hid 1)
    (batch : List ((Fin inD → ℝ) × ℤ)) : ℝ :=
  bceWithLogitsLoss
    (batch.map (fun p => (squeeze1 (mlpForward m .binary p.1), (p.2 : ℝ))))

/-- One training-batch loss of `MLP.fit` for the classification objective:
`nn.CrossEntropyLoss()(self.forward(batch_X), batch_y)` — note that
`self.forward` has already applied softmax for this objective. -/
def fitBatchLossClassification {inD hid c : ℕ} (m : MLPModel inD hid c)
    (batch : List ((Fin inD → ℝ) × Fin c)) : ℝ :=
  crossEntropyLoss (batch.map (fun p => (mlpForward m .classification p.1, p.2)))

/-- C2: the training loss is selected by objective — regression: mean
squared error between the raw squeezed output and float-cast targets;
binary: sigmoid cross-entropy computed from the raw (un-activated) logit
and float-cast targets; classification: the cross-entropy-style loss
applied to the already-softmaxed forward output (log-sum-exp of softmax
values minus the target's softmax value — double normalization relative to
applying it to raw scores). -/
theorem mlp_fit_loss_selection (inD hid c : ℕ) (m1 : MLPModel inD hid 1)
    (mc : MLPModel inD hid c) (batch : List ((Fin inD → ℝ) × ℤ))
    (batchC : List ((Fin inD → ℝ) × Fin c)) :
    (fitBatchLossRegression m1 batch =
      (batch.map (fun p => (squeeze1 (rawScores m1 p.1) - (p.2 : ℝ)) ^ 2)).sum /
        (batch.length : ℝ)) ∧
    (fitBatchLossBinary m1 batch =
      (batch.map (fun p =>
        -((p.2 : ℝ) * Real.log (sigmoid (squeeze1 (rawScores m1 p.1))) +
          (1 - (p.2 : ℝ)) * Real.log (1 - sigmoid (squeeze1 (rawScores m1 p.1)))))).sum /
        (batch.length : ℝ)) ∧
    (fitBatchLossClassification mc batchC =
      (batchC.map (fun p =>
        Real.log (∑ j, Real.exp (softmax (rawScores mc p.1) j)) -
          softmax (rawScores mc p.1) p.2)).sum / (batchC.length : ℝ)) := by
  refine ⟨?_, ?_, ?_⟩
  · simp only [fitBatchLossRegression, mseLoss, List.map_map, List.length_map,
      mlpForward_not_classification m1 .regression (by decide)]
    rfl
  · simp only [fitBatchLossBinary, bceWithLogitsLoss, List.map_map, List.length_map,
      mlpForward_not_classification m1 .binary (by decide)]
    rfl
  · simp only [fitBatchLossClassification, crossEntropyLoss, List.map_map,
      List.length_map, mlpForward_classification]
    rfl

/-- Witness for C2 at concrete zero-weight models and one-element batches. -/
theorem mlp_fit_loss_selection_witness :
    (fitBatchLossRegression
        (⟨⟨fun _ _ => 0, fun _ => 0⟩, [], ⟨fun _ _ => 0, fun _ => 0⟩⟩ : MLPModel 2 3 1)
        [(fun _ => 1, 2)] =
      ([(fun _ => (1 : ℝ), (2 : ℤ))].map (fun p =>
        (squeeze1 (rawScores (⟨⟨fun _ _ => 0, fun _ => 0⟩, [],
          ⟨fun _ _ => 0, fun _ => 0⟩⟩ : MLPModel 2 3 1) p.1) - (p.2 : ℝ)) ^ 2)).sum /
        (([(fun _ => (1 : ℝ), (2 : ℤ))] : List ((Fin 2 → ℝ) × ℤ)).length : ℝ)) ∧
    (fitBatchLossBinary
        (⟨⟨fun _ _ => 0, fun _ => 0⟩, [], ⟨fun _ _ => 0, fun _ => 0⟩⟩ : MLPModel 2 3 1)
        [(fun _ => 1, 2)] =
      ([(fun _ => (1 : ℝ), (2 : ℤ))].map (fun p =>
        -((p.2 : ℝ) * Real.log (sigmoid (squeeze1 (rawScores
            (⟨⟨fun _ _ => 0, fun _ => 0⟩, [], ⟨fun _ _ => 0, fun _ => 0⟩⟩ :
              MLPModel 2 3 1) p.1))) +
          (1 - (p.2 : ℝ)) * Real.log (1 - sigmoid (squeeze1 (rawScores
            (⟨⟨fun _ _ => 0, fun _ => 0⟩, [], ⟨fun _ _ => 0, fun _ => 0⟩⟩ :
              MLPModel 2 3 1) p.1)))))).sum /
        (([(fun _ => (1 : ℝ), (2 : ℤ))] : List ((Fin 2 → ℝ) × ℤ)).length : ℝ)) ∧
    (fitBatchLossClassification
        (⟨⟨fun _ _ => 0, fun _ => 0⟩, [], ⟨fun _ _ => 0, fun _ => 0⟩⟩ : MLPModel 2 3 2)
        [(fun _ => 1, 0)] =
      ([(fun _ => (1 : ℝ), (0 : Fin 2))].map (fun p =>
        Real.log (∑ j, Real.exp (softmax (rawScores
          (⟨⟨fun _ _ => 0, fun _ => 0⟩, [], ⟨fun _ _ => 0, fun _ => 0⟩⟩ :
            MLPModel 2 3 2) p.1) j)) -
          softmax (rawScores (⟨⟨fun _ _ => 0, fun _ => 0⟩, [],
            ⟨fun _ _ => 0, fun _ => 0⟩⟩ : MLPModel 2 3 2) p.1) p.2)).sum /
        (([(fun _ => (1 : ℝ), (0 : Fin 2))] : List ((Fin 2 → ℝ) × Fin 2)).length : ℝ)) :=
  mlp_fit_loss_selection 2 3 2
    ⟨⟨fun _ _ => 0, fun _ => 0⟩, [], ⟨fun _ _ => 0, fun _ => 0⟩⟩
    ⟨⟨fun _ _ => 0, fun _ => 0⟩, [], ⟨fun _ _ => 0, fun _ => 0⟩⟩
    [(fun _ => 1, 2)] [(fun _ => 1, 0)]

end

/-! ### `MLP.predict` -/

/-- Batching of an (already shuffled) sample order at the configured batch
size: consecutive chunks, as the batch iterator yields them. -/
def chunksOf {α : Type} (n : ℕ) : List α → List (List α)
  | [] => []
  | x :: xs =>
    if hn : n = 0 then [x :: xs]
    else (x :: xs).take n :: chunksOf n ((x :: xs).drop n)
termination_by l => l.length
decreasing_by
  simp only [List.length_drop, List.length_cons]
  have h2 : 0 < n := Nat.pos_of_ne_zero hn
  omega

lemma chunksOf_flatten_aux {α : Type} (n : ℕ) :
    ∀ (N : ℕ) (l : List α), l.length ≤ N → (chunksOf n l).flatten = l := by
  intro N
  induction N with
  | zero =>
    intro l hl
    have : l = [] := List.length_eq_zero.1 (Nat.le_zero.1 hl)
    subst this
    simp [chunksOf]
  | succ N ih =>
    intro l hl
    match l with
    | [] => simp [chunksOf]
    | x :: xs =>
      rw [chunksOf]
      by_cases hn : n = 0
      · rw [dif_pos hn]
        simp
      · rw [dif_neg hn]
        simp only [List.flatten_cons]
        have hlt : ((x :: xs).drop n).length ≤ N := by
          simp only [List.length_drop, List.length_cons]
          have h2 : 0 < n := Nat.pos_of_ne_zero hn
          simp only [List.length_cons] at hl
          omega
        rw [ih ((x :: xs).drop n) hlt, List.take_append_drop]

lemma chunksOf_flatten {α : Type} (n : ℕ) (l : List α) :
    (chunksOf n l).flatten = l :=
  chunksOf_flatten_aux n l.length l (le_refl _)

noncomputable section

/-- Method `MLP.predict` (src/models/mlp.py): reload the "best" checkpoint from the
"tmp" directory (embedded as failure when no such checkpoint is among the
saved files), iterate the shuffled sample order `perm` in batches of the
configured size, forward each batch — applying a sigmoid to the output when
the objective is binary — and concatenate the per-batch outputs in iteration
order. The result is stored as `self.predictions` and returned; the pair
returned here is (new instance state, returned array). -/
def MLPpredict {inD hid outD : ℕ} (m : MLPModel inD hid outD) (obj : Objective)
    (files : List (String × String)) (X : ℕ → Fin inD → ℝ)
    (perm : List ℕ) (batchSize : ℕ) :
    Option (List (Fin outD → ℝ) × List (Fin outD → ℝ)) :=
  if ("best", "tmp") ∈ files then
    let outs := (chunksOf batchSize perm).map (fun b => b.map (fun idx =>
      let preds := mlpForward m obj (X idx)
      if obj = .binary then fun j => sigmoid (preds j) else preds))
    let predictions := outs.flatten
    some (predictions, predictions)
  else none

/-- The per-sample output row of `predict`: the forward pass, with a sigmoid
on top for the binary objective. -/
def postOut {inD hid outD : ℕ} (m : MLPModel inD hid outD) (obj : Objective)
    (X : ℕ → Fin inD → ℝ) (idx : ℕ) : Fin outD → ℝ :=
  if obj = .binary then fun j => sigmoid (mlpForward m obj (X idx) j)
  else mlpForward m obj (X idx)

/-- C3: for a shuffled iteration order `perm` over `N` samples,
`predict` requires the "best" checkpoint in the "tmp" directory, returns
(and retains as instance state) the concatenation of the per-batch outputs
in iteration order — row `j` of the result is the output for sample
`perm[j]`, i.e. the shuffled order, not the input order — the first
dimension of the result is exactly `N`, a sigmoid is applied on top of the
forward pass exactly for the binary objective, and the checkpoint load fails
when no "best"/"tmp" checkpoint exists. -/
theorem mlp_predict_spec (inD hid outD N batchSize : ℕ)
    (m : MLPModel inD hid outD) (obj : Objective)
    (files : List (String × String)) (X : ℕ → Fin inD → ℝ) (perm : List ℕ)
    (hfile : ("best", "tmp") ∈ files) (hperm : perm.Perm (List.range N)) :
    (MLPpredict m obj files X perm batchSize =
      some (perm.map (postOut m obj X), perm.map (postOut m obj X))) ∧
    ((perm.map (postOut m obj X)).length = N) ∧
    (∀ j (hj : j < perm.length),
      (perm.map (postOut m obj X)).getD j (fun _ => 0) =
        postOut m obj X (perm.getD j 0)) ∧
    (∀ idx, postOut m .binary X idx =
      fun j => sigmoid (mlpForward m .binary (X idx) j)) ∧
    (∀ idx, obj ≠ .binary → postOut m obj X idx = mlpForward m obj (X idx)) ∧
    (∀ files2 : List (String × String), ("best", "tmp") ∉ files2 →
      MLPpredict m obj files2 X perm batchSize = none) := by
  refine ⟨?_, ?_, ?_, ?_, ?_, ?_⟩
  · rw [MLPpredict, if_pos hfile]
    show some
        (((chunksOf batchSize perm).map (List.map (postOut m obj X))).flatten,
         ((chunksOf batchSize perm).map (List.map (postOut m obj X))).flatten) = _
    rw [← List.map_flatten, chunksOf_flatten]
  · rw [List.length_map, hperm.length_eq, List.length_range]
  · intro j hj
    rw [List.getD_eq_getElem?_getD, List.getElem?_map]
    rw [List.getD_eq_getElem?_getD]
    rw [List.getElem?_eq_getElem hj]
    rfl
  · intro idx
    rw [postOut, if_pos rfl]
  · intro idx hobj
    rw [postOut, if_neg hobj]
  · intro files2 hf2
    rw [MLPpredict, if_neg hf2]

/-- Witness for C3 at a concrete binary model, two samples iterated in the
shuffled order `[1, 0]`. -/
theorem mlp_predict_spec_witness :
    (MLPpredict (⟨⟨fun _ _ => 0, fun _ => 0⟩, [], ⟨fun _ _ => 0, fun _ => 0⟩⟩ :
        MLPModel 1 1 1) .binary [("best", "tmp")] (fun _ _ => 0) [1, 0] 1 =
      some (([1, 0] : List ℕ).map (postOut (⟨⟨fun _ _ => 0, fun _ => 0⟩, [],
          ⟨fun _ _ => 0, fun _ => 0⟩⟩ : MLPModel 1 1 1) .binary (fun _ _ => 0)),
        ([1, 0] : List ℕ).map (postOut (⟨⟨fun _ _ => 0, fun _ => 0⟩, [],
          ⟨fun _ _ => 0, fun _ => 0⟩⟩ : MLPModel 1 1 1) .binary (fun _ _ => 0)))) ∧
    ((([1, 0] : List ℕ).map (postOut (⟨⟨fun _ _ => 0, fun _ => 0⟩, [],
        ⟨fun _ _ => 0, fun _ => 0⟩⟩ : MLPModel 1 1 1) .binary
        (fun _ _ => 0))).length = 2) ∧
    (∀ j (hj : j < ([1, 0] : List ℕ).length),
      (([1, 0] : List ℕ).map (postOut (⟨⟨fun _ _ => 0, fun _ => 0⟩, [],
          ⟨fun _ _ => 0, fun _ => 0⟩⟩ : MLPModel 1 1 1) .binary
          (fun _ _ => 0))).getD j (fun _ => 0) =
        postOut (⟨⟨fun _ _ => 0, fun _ => 0⟩, [], ⟨fun _ _ => 0, fun _ => 0⟩⟩ :
          MLPModel 1 1 1) .binary (fun _ _ => 0) (([1, 0] : List ℕ).getD j 0)) ∧
    (∀ idx, postOut (⟨⟨fun _ _ => 0, fun _ => 0⟩, [], ⟨fun _ _ => 0, fun _ => 0⟩⟩ :
        MLPModel 1 1 1) .binary (fun _ _ => 0) idx =
      fun j => sigmoid (mlpForward (⟨⟨fun _ _ => 0, fun _ => 0⟩, [],
        ⟨fun _ _ => 0, fun _ => 0⟩⟩ : MLPModel 1 1 1) .binary
        ((fun (_ : ℕ) (_ : Fin 1) => (0 : ℝ)) idx) j)) ∧
    (∀ idx, Objective.binary ≠ .binary →
      postOut (⟨⟨fun _ _ => 0, fun _ => 0⟩, [], ⟨fun _ _ => 0, fun _ => 0⟩⟩ :
        MLPModel 1 1 1) .binary (fun _ _ => 0) idx =
      mlpForward (⟨⟨fun _ _ => 0, fun _ => 0⟩, [], ⟨fun _ _ => 0, fun _ => 0⟩⟩ :
        MLPModel 1 1 1) .binary ((fun (_ : ℕ) (_ : Fin 1) => (0 : ℝ)) idx)) ∧
    (∀ files2 : List (String × String), ("best", "tmp") ∉ files2 →
      MLPpredict (⟨⟨fun _ _ => 0, fun _ => 0⟩, [], ⟨fun _ _ => 0, fun _ => 0⟩⟩ :
        MLPModel 1 1 1) .binary files2 (fun _ _ => 0) [1, 0] 1 = none) :=
  mlp_predict_spec 1 1 1 2 1
    ⟨⟨fun _ _ => 0, fun _ => 0⟩, [], ⟨fun _ _ => 0, fun _ => 0⟩⟩ .binary
    [("best", "tmp")] (fun _ _ => 0) [1, 0] (by decide) (by decide)

end

/-! ### The first training batch always saves a checkpoint -/

lemma runSched_trace_extend (vB : ℕ → ℕ → List ℚ) (patience : ℕ) :
    ∀ (sched : List (ℕ × ℕ)) (s : FitState),
      ∃ l, (runSched vB patience sched s).trace = s.trace ++ l := by
  intro sched
  induction sched with
  | nil => intro s; exact ⟨[], by simp [runSched]⟩
  | cons p rest ih =>
    intro s
    simp only [runSched]
    by_cases h : (fitStep vB patience p.1 p.2 s).2 = true
    · refine ⟨[fitEntry vB p.1 p.2 s], ?_⟩
      simp only [h, if_true]
      exact fitStep_fst_trace vB patience p.1 p.2 s
    · simp only [Bool.not_eq_true] at h
      simp only [h, Bool.false_eq_true, if_false]
      obtain ⟨l, hl⟩ := ih (fitStep vB patience p.1 p.2 s).1
      refine ⟨fitEntry vB p.1 p.2 s :: l, ?_⟩
      rw [hl, fitStep_fst_trace]
      simp

lemma runSched_head_entry (vB : ℕ → ℕ → List ℚ) (patience : ℕ)
    (p : ℕ × ℕ) (rest : List (ℕ × ℕ)) (s : FitState) (hs : s.trace = []) :
    ∃ l, (runSched vB patience (p :: rest) s).trace =
      fitEntry vB p.1 p.2 s :: l := by
  simp only [runSched]
  by_cases h : (fitStep vB patience p.1 p.2 s).2 = true
  · refine ⟨[], ?_⟩
    simp only [h, if_true]
    rw [show ({ (fitStep vB patience p.1 p.2 s).1 with stopped := true } : FitState).trace =
      (fitStep vB patience p.1 p.2 s).1.trace from rfl]
    rw [fitStep_fst_trace, hs]
    rfl
  · simp only [Bool.not_eq_true] at h
    simp only [h, Bool.false_eq_true, if_false]
    obtain ⟨l, hl⟩ := runSched_trace_extend vB patience rest
      (fitStep vB patience p.1 p.2 s).1
    refine ⟨l, ?_⟩
    rw [hl, fitStep_fst_trace, hs]
    rfl

lemma schedule_ne_nil (E B : ℕ) (hE : 0 < E) (hB : 0 < B) :
    schedule E B ≠ [] := by
  intro habs
  rw [schedule, List.flatMap_eq_nil_iff] at habs
  have h0 : (0 : ℕ) ∈ List.range E := List.mem_range.2 hE
  have := habs 0 h0
  rw [List.map_eq_nil_iff, List.range_eq_nil] at this
  omega

noncomputable section

/-- C9: `min_val_loss` starts at infinity, so as soon as at least one
training batch is processed (at least one epoch and one batch per epoch),
the very first processed batch strictly improves the best validation loss
and writes the "best" checkpoint under "tmp"; consequently the checkpoint
`MLP.predict` reloads exists after any such `fit` call and its load cannot
fail for lack of a prior save. -/
theorem mlp_fit_first_batch_saves (E B patience : ℕ) (vB : ℕ → ℕ → List ℚ)
    (inD hid outD batchSize : ℕ) (m : MLPModel inD hid outD) (obj : Objective)
    (X : ℕ → Fin inD → ℝ) (perm : List ℕ) (hE : 0 < E) (hB : 0 < B) :
    (∃ t l, (MLPfit E B patience vB).trace = t :: l ∧ t.saved = true) ∧
    (("best", "tmp") ∈ (MLPfit E B patience vB).savedFiles) ∧
    ((MLPpredict m obj (MLPfit E B patience vB).savedFiles X perm
        batchSize).isSome = true) := by
  obtain ⟨p, rest, hsched⟩ :=
    List.exists_cons_of_ne_nil (schedule_ne_nil E B hE hB)
  have hmain : ∃ t l, (MLPfit E B patience vB).trace = t :: l ∧ t.saved = true := by
    rw [MLPfit_eq_runSched, hsched]
    obtain ⟨l, htr⟩ := runSched_head_entry vB patience p rest initFitState rfl
    refine ⟨fitEntry vB p.1 p.2 initFitState, l, htr, ?_⟩
    rw [fitEntry_saved]
    exact decide_eq_true (WithTop.coe_lt_top _)
  obtain ⟨t, l, htr, hsv⟩ := hmain
  have hinv := MLPfit_minInv E B patience vB
  have hmem : ("best", "tmp") ∈ (MLPfit E B patience vB).savedFiles := by
    rw [hinv.2.2.2.1]
    refine List.mem_map.2 ⟨t, ?_, rfl⟩
    refine List.mem_filter.2 ⟨?_, ?_⟩
    · rw [htr]; exact List.mem_cons_self _ _
    · exact hsv
  refine ⟨⟨t, l, htr, hsv⟩, hmem, ?_⟩
  rw [MLPpredict, if_pos hmem]
  rfl

/-- Witness for C9 at a concrete one-epoch, one-batch run. -/
theorem mlp_fit_first_batch_saves_witness :
    (∃ t l, (MLPfit 1 1 0 (fun _ _ => [1])).trace = t :: l ∧ t.saved = true) ∧
    (("best", "tmp") ∈ (MLPfit 1 1 0 (fun _ _ => [1])).savedFiles) ∧
    ((MLPpredict (⟨⟨fun _ _ => 0, fun _ => 0⟩, [], ⟨fun _ _ => 0, fun _ => 0⟩⟩ :
        MLPModel 1 1 1) .regression (MLPfit 1 1 0 (fun _ _ => [1])).savedFiles
        (fun _ _ => 0) [0] 1).isSome = true) :=
  mlp_fit_first_batch_saves 1 1 0 (fun _ _ => [1]) 1 1 1 1
    ⟨⟨fun _ _ => 0, fun _ => 0⟩, [], ⟨fun _ _ => 0, fun _ => 0⟩⟩ .regression
    (fun _ _ => 0) [0] (by decide) (by decide)

end

end TabSurvey
